import Mathlib

/-!
Shallow embedding of `merge_estimates.py`: a batch tool that consolidates
estimating spreadsheets into one master table, detecting a category from each
filename, normalizing columns, cleaning a unit-cost field, and deduplicating
by a normalized `(category, description)` key, in overwrite or append mode.

Dataframes are modelled as a list of column names plus a list of rows of
cells; a cell is either the text it was loaded with or a parsed number
(pandas dataframes are rectangular, which appears as an explicit
well-formedness hypothesis where it matters).  Exceptions that the script
does not catch (the `ValueError` that `astype(float)` can raise, or a
failure inside `auto_adjust_column_width`) are modelled with `Except`.
-/

namespace MergeEstimates

/-- Python `str.lower()` (ASCII model): lowercase every character. -/
def pyLower (s : String) : String := ⟨s.data.map Char.toLower⟩

/-- Python `str.strip()`: remove leading and trailing whitespace. -/
def pyStrip (s : String) : String :=
  ⟨((s.data.dropWhile Char.isWhitespace).reverse.dropWhile Char.isWhitespace).reverse⟩

/-- Python `str.startswith`. -/
def pyStartsWith (s p : String) : Bool := s.data.take p.data.length == p.data

/-- The effect of the regex substitution replacing each maximal run of
whitespace by a single space (`.str.replace(r"\s+", " ", regex=True)`); the
flag records whether the previous character was whitespace. -/
def collapseWSAux : Bool → List Char → List Char
  | _, [] => []
  | prevWS, c :: cs =>
    if c.isWhitespace then
      if prevWS then collapseWSAux true cs else ' ' :: collapseWSAux true cs
    else c :: collapseWSAux false cs

def collapseWS (cs : List Char) : List Char := collapseWSAux false cs

/-- The normalized dedup text: `.str.lower()` then whitespace collapsing
(line 205 of the script). -/
def normalizeDesc (s : String) : String := ⟨collapseWS (pyLower s).data⟩

/-- An output row: the four columns the script writes, in order
`category, description, unit cost, source file`.  The unit cost is a float
in the script; it is modelled as an exact rational. -/
structure Row where
  category : String
  description : String
  unitCost : ℚ
  sourceFile : String
deriving DecidableEq, Repr

/-- The dedup key of line 207: the `category` column paired with the
normalized description.  Unit cost and source file take no part. -/
def rowKey (r : Row) : String × String := (r.category, normalizeDesc r.description)

/-- `drop_duplicates(subset=["category", "normalized"])` with pandas' default
`keep="first"`: scan in order, keeping a row only when its key is unseen. -/
def dropDuplicatesAux : List Row → List (String × String) → List Row
  | [], _ => []
  | r :: rs, seen =>
    if rowKey r ∈ seen then dropDuplicatesAux rs seen
    else r :: dropDuplicatesAux rs (rowKey r :: seen)

/-- Lines 203-208: deduplicate the combined table on the normalized key. -/
def dropDuplicates (t : List Row) : List Row := dropDuplicatesAux t []

/-- The regex substitution of line 115: delete every character that is not a
digit or a dot. -/
def cleanCostText (s : String) : String :=
  ⟨s.data.filter (fun c => c.isDigit || c == '.')⟩

/-- `Series.replace("", "0")` of line 116: a cell exactly equal to the empty
string becomes `"0"`. -/
def emptyToZero (s : String) : String := if s = "" then "0" else s

/-- Value of a digit string (most significant first). -/
def digitsVal (cs : List Char) : ℕ := cs.foldl (fun a c => 10 * a + (c.toNat - 48)) 0

/-- Python `float()` restricted to the strings the pipeline feeds it — text
made of digits and dots only.  Such text parses iff it has at most one dot
and at least one digit; `none` models the `ValueError` that
`astype(float)` raises otherwise.  The value is kept exact as a rational. -/
def pyFloatOfCleaned (s : String) : Option ℚ :=
  let cs := s.data
  if (cs.all fun c => c.isDigit || c == '.') ∧ cs.count '.' ≤ 1 ∧ (cs.any fun c => c.isDigit) then
    let intPart := cs.takeWhile (· ≠ '.')
    let fracPart := (cs.dropWhile (· ≠ '.')).drop 1
    some ((digitsVal intPart : ℚ) + (digitsVal fracPart : ℚ) / (10 : ℚ) ^ fracPart.length)
  else none

/-- The whole unit-cost cell pipeline of lines 112-118, for one cell already
cast to text: strip non-digit/dot characters, turn an empty result into
`"0"`, parse as a float. -/
def parseCost (s : String) : Option ℚ := pyFloatOfCleaned (emptyToZero (cleanCostText s))

/-- `astype(float)` over a whole column: every cell must parse, otherwise the
statement raises (`none`). -/
def astypeFloatAll : List String → Option (List ℚ)
  | [] => some []
  | s :: ss =>
    match pyFloatOfCleaned s, astypeFloatAll ss with
    | some q, some qs => some (q :: qs)
    | _, _ => none

/-- The category configuration: `categories.json` maps category names to
keyword lists; Python dicts preserve insertion order, so it is an ordered
association list. -/
abbrev Categories := List (String × List String)

/-- Substring test on character lists, the semantics of Python's
`needle in hay`. -/
def containsSub (hay needle : List Char) : Bool :=
  (List.range (hay.length + 1)).any fun i => (hay.drop i).take needle.length == needle

/-- One keyword test of line 80: `keyword.lower() in name` where `name` is the
lowercased filename stem. -/
def keywordMatches (stem kw : String) : Bool :=
  containsSub (pyLower stem).data (pyLower kw).data

/-- Lines 66-82, `detect_category`: first category (in configuration order)
one of whose keywords occurs, case-insensitively, in the filename stem;
`"Unknown"` when none does. -/
def detectCategory (stem : String) (categories : Categories) : String :=
  match categories.find? (fun ck => ck.2.any (keywordMatches stem)) with
  | some ck => ck.1
  | none => "Unknown"

/-- A spreadsheet cell as pandas holds it here: either the text it came with,
or a parsed float (exact rational).  `asText` is Python's `str()`; the
pipeline only ever applies it to `str` cells. -/
inductive Cell where
  | str : String → Cell
  | num : ℚ → Cell
deriving DecidableEq, Repr

def Cell.asText : Cell → String
  | .str s => s
  | .num q => toString q

/-- A loaded dataframe: column names plus rows of cells.  pandas dataframes
are rectangular; that appears below as the explicit hypothesis `Rect`. -/
structure InputDF where
  columns : List String
  rows : List (List Cell)
deriving DecidableEq, Repr

/-- Rectangularity: every row has one cell per column. -/
def Rect (df : InputDF) : Prop := ∀ r ∈ df.rows, r.length = df.columns.length

/-- Index of a column name (pandas label lookup; first occurrence). -/
def colIndex (df : InputDF) (name : String) : ℕ := df.columns.indexOf name

def getCell (row : List Cell) (i : ℕ) : Cell := row.getD i (.str "")

/-- `df[name]` as a list of cells. -/
def getColumn (df : InputDF) (name : String) : List Cell :=
  df.rows.map fun r => getCell r (colIndex df name)

/-- `df[name] = f(df[name])`: transform one column in place. -/
def mapColumn (df : InputDF) (name : String) (f : Cell → Cell) : InputDF :=
  { df with rows := df.rows.map fun r => r.set (colIndex df name) (f (getCell r (colIndex df name))) }

/-- `df[name] = vals` for a computed column of the same height. -/
def setColumn (df : InputDF) (name : String) (vals : List Cell) : InputDF :=
  if name ∈ df.columns then
    { df with rows := (df.rows.zip vals).map fun rv => rv.1.set (colIndex df name) rv.2 }
  else
    { columns := df.columns ++ [name], rows := (df.rows.zip vals).map fun rv => rv.1 ++ [rv.2] }

/-- `df[name] = v` for a scalar `v`: overwrite the column if the label
exists, otherwise add it at the end. -/
def setConstColumn (df : InputDF) (name : String) (v : Cell) : InputDF :=
  if name ∈ df.columns then
    { df with rows := df.rows.map fun r => r.set (colIndex df name) v }
  else
    { columns := df.columns ++ [name], rows := df.rows.map fun r => r ++ [v] }

/-- Lines 103-105: strip and lowercase every column label, then (when an
`item description` label is present) rename it to `description`. -/
def normalizeColumns (df : InputDF) : InputDF :=
  let cols := df.columns.map fun c => pyLower (pyStrip c)
  let cols := if "item description" ∈ cols
    then cols.map fun c => if c = "item description" then "description" else c
    else cols
  { df with columns := cols }

/-- Line 111: `df["description"] = df["description"].astype(str).str.strip()`. -/
def descTrimmed (df : InputDF) : InputDF :=
  mapColumn df "description" fun c => .str (pyStrip c.asText)

/-- The text fed to `astype(float)` in lines 112-116: each unit-cost cell cast
to text, stripped of non-digit/dot characters, `""` replaced by `"0"`. -/
def costStrings (df : InputDF) : List String :=
  (getColumn df "unit cost").map fun c => emptyToZero (cleanCostText c.asText)

/-- Lines 120-121: `df["category"] = category; df["source file"] = source_file`. -/
def withProvenance (df : InputDF) (sourceFile category : String) : InputDF :=
  setConstColumn (setConstColumn df "category" (.str category)) "source file" (.str sourceFile)

/-- Line 124: the returned 4-column selection
`df[["category", "description", "unit cost", "source file"]]` as rows. -/
def selectOutput (df : InputDF) (sourceFile category : String) (qs : List ℚ) : List Row :=
  (((getColumn df "description").map Cell.asText).zip qs).map
    fun dq => Row.mk category dq.1 dq.2 sourceFile

/-- Lines 88-124, `clean_dataframe`, as explicit state passing: the first
component is the caller's dataframe after the call (the function mutates it
in place), the second is the result — `.ok none` for a rejected file,
`.ok (some rows)` for the returned 4-column selection, `.error ()` for the
uncaught `ValueError` out of `astype(float)`.

On duplicate column labels pandas would return a sub-dataframe from
`df["description"]` and the script would raise; the model reads the first
occurrence of a label instead. -/
def cleanDataframe (df0 : InputDF) (sourceFile category : String) :
    InputDF × Except Unit (Option (List Row)) :=
  let df := normalizeColumns df0
  if "description" ∈ df.columns ∧ "unit cost" ∈ df.columns then
    let df := descTrimmed df
    match astypeFloatAll (costStrings df) with
    | none => (df, .error ())
    | some qs =>
      let df := withProvenance (setColumn df "unit cost" (qs.map Cell.num)) sourceFile category
      (df, .ok (some (selectOutput df sourceFile category qs)))
  else (df, .ok none)

/-- One candidate file of the input directory: its name, stem and suffix as
the filesystem reports them, and its loaded table. -/
structure InputFile where
  name : String
  stem : String
  suffix : String
  df : InputDF
deriving DecidableEq, Repr

/-- The directory filter of lines 152-155: keep `.csv`/`.xlsx` files
(case-insensitive suffix) that are not Excel lock-files. -/
def isInputFile (f : InputFile) : Bool :=
  (pyLower f.suffix == ".xlsx" || pyLower f.suffix == ".csv") && !(pyStartsWith f.name "~$")

/-- The per-file loop of lines 168-180: classify, clean, and collect the
cleaned tables of the accepted files in order; a cleaning `ValueError`
aborts the whole loop. -/
def processFiles (categories : Categories) : List InputFile → Except Unit (List (List Row))
  | [] => .ok []
  | f :: fs =>
    match (cleanDataframe f.df f.name (detectCategory f.stem categories)).2 with
    | .error e => .error e
    | .ok none => processFiles categories fs
    | .ok (some rows) =>
      match processFiles categories fs with
      | .error e => .error e
      | .ok rest => .ok (rows :: rest)

/-- Lines 191-198: the pre-dedup table.  In append mode with an existing
master file, existing rows come first, then the new data; otherwise the new
data alone. -/
def combinedTable (mode : String) (master : Option (List Row)) (newData : List Row) : List Row :=
  if pyLower mode = "append" ∧ master.isSome then master.getD [] ++ newData else newData

/-- Outcome of one run of `merge_estimates`: an uncaught exception, a
diagnostic-and-return without touching the output, or a written table. -/
inductive MergeResult where
  | crash : MergeResult
  | abortNoWrite : MergeResult
  | written : List Row → MergeResult
deriving DecidableEq, Repr

/-- Lines 130-215, `merge_estimates` up to the moment the merged table is
fixed: `config` is the parsed `categories.json` when the file exists,
`files` the directory listing, `master` the existing output file's rows when
that file exists. -/
def runMerge (config : Option Categories) (files : List InputFile)
    (master : Option (List Row)) (mode : String) : MergeResult :=
  match config with
  | none => .abortNoWrite
  | some categories =>
    let allFiles := files.filter isInputFile
    if allFiles.isEmpty then .abortNoWrite
    else
      match processFiles categories allFiles with
      | .error _ => .crash
      | .ok combinedData =>
        if combinedData.isEmpty then .abortNoWrite
        else
          .written (dropDuplicates (combinedTable mode master (combinedData.flatten)))

/-- The master file's content after a run. -/
def masterAfterMerge (master : Option (List Row)) (r : MergeResult) : Option (List Row) :=
  match r with
  | .written t => some t
  | _ => master

/-- State of the output file for the post-write phase. -/
structure OutputState where
  masterFile : Option (List Row)
deriving DecidableEq, Repr

/-- Lines 28-44, `auto_adjust_column_width`: re-opens and re-saves the
workbook; no handler inside, so a failure raises. -/
def autoAdjustColumnWidth (fails : Bool) : Except Unit Unit :=
  if fails then .error () else .ok ()

/-- Lines 47-63, `open_master_file`: the launch sits in `try/except`, so the
call never raises; the returned flag records whether the warning was
printed. -/
def openMasterFile (launchFails : Bool) : Bool := launchFails

/-- Lines 220-223: write the table with `to_excel`, then call
`auto_adjust_column_width` (no handler at this call site either, so its
failure propagates), then `open_master_file`. -/
def saveAndFinalize (st : OutputState) (table : List Row)
    (resizeFails viewerFails : Bool) : OutputState × Except Unit Unit :=
  let st := { st with masterFile := some table }
  match autoAdjustColumnWidth resizeFails with
  | .error e => (st, .error e)
  | .ok _ =>
    let _warned := openMasterFile viewerFails
    (st, .ok ())

/-! ### Deduplication: first occurrence per key -/

/-- The spec's wording of deduplication, for comparison with
`dropDuplicates`: "retain the first occurrence of each key in table order,
drop subsequent rows with the same key". -/
def specFirstOccurrences : List Row → List Row
  | [] => []
  | r :: rs => r :: specFirstOccurrences (rs.filter fun r2 => rowKey r2 != rowKey r)
termination_by l => l.length
decreasing_by
  exact Nat.lt_succ_of_le (List.length_filter_le _ _)

theorem dropDuplicatesAux_eq_spec (rs : List Row) : ∀ seen : List (String × String),
    dropDuplicatesAux rs seen =
      specFirstOccurrences (rs.filter fun r => decide (rowKey r ∉ seen)) := by
  induction rs with
  | nil => intro seen; simp [dropDuplicatesAux, specFirstOccurrences]
  | cons r rs ih =>
    intro seen
    by_cases h : rowKey r ∈ seen
    · rw [dropDuplicatesAux, if_pos h, List.filter_cons_of_neg (by simpa using h)]
      exact ih seen
    · rw [dropDuplicatesAux, if_neg h, List.filter_cons_of_pos (by simpa using h),
        specFirstOccurrences, ih (rowKey r :: seen), List.filter_filter]
      congr 1
      congr 1
      apply List.filter_congr
      intro x _
      by_cases hx : rowKey x = rowKey r <;> by_cases hs : rowKey x ∈ seen <;>
        simp [hx, hs, List.mem_cons]

theorem dropDuplicates_eq_spec (t : List Row) : dropDuplicates t = specFirstOccurrences t := by
  rw [dropDuplicates, dropDuplicatesAux_eq_spec t []]
  congr 1
  simp

theorem mem_of_mem_dropDuplicatesAux {r : Row} :
    ∀ {rs : List Row} {seen}, r ∈ dropDuplicatesAux rs seen → r ∈ rs := by
  intro rs
  induction rs with
  | nil => intro seen h; simp [dropDuplicatesAux] at h
  | cons x xs ih =>
    intro seen h
    rw [dropDuplicatesAux] at h
    by_cases hx : rowKey x ∈ seen
    · rw [if_pos hx] at h
      exact List.mem_cons_of_mem x (ih h)
    · rw [if_neg hx] at h
      rcases List.mem_cons.mp h with h | h
      · exact h ▸ List.mem_cons_self x xs
      · exact List.mem_cons_of_mem x (ih h)

theorem mem_of_mem_dropDuplicates {r : Row} {t : List Row} (h : r ∈ dropDuplicates t) :
    r ∈ t := mem_of_mem_dropDuplicatesAux h

theorem key_mem_dropDuplicatesAux (k : String × String) :
    ∀ (rs : List Row) (seen : List (String × String)),
      k ∈ (dropDuplicatesAux rs seen).map rowKey ↔ k ∈ rs.map rowKey ∧ k ∉ seen := by
  intro rs
  induction rs with
  | nil => intro seen; simp [dropDuplicatesAux]
  | cons x xs ih =>
    intro seen
    rw [dropDuplicatesAux]
    by_cases hx : rowKey x ∈ seen
    · rw [if_pos hx, ih seen]
      by_cases hk : k = rowKey x
      · subst hk; simp [hx]
      · simp [hk]
    · rw [if_neg hx]
      by_cases hk : k = rowKey x
      · subst hk; simp [hx]
      · simp only [List.map_cons, List.mem_cons, hk, false_or]
        rw [ih (rowKey x :: seen)]
        simp [hk]

/-- Set of normalized dedup keys of a table. -/
def keySet (t : List Row) : Finset (String × String) := (t.map rowKey).toFinset

theorem keySet_dropDuplicates (t : List Row) : keySet (dropDuplicates t) = keySet t := by
  ext k
  rw [keySet, keySet, List.mem_toFinset, List.mem_toFinset, dropDuplicates,
    key_mem_dropDuplicatesAux]
  simp

theorem keySet_append (t u : List Row) : keySet (t ++ u) = keySet t ∪ keySet u := by
  simp [keySet]

/-- Running the dedup scan over `ex ++ nd` when the keys of `ex` are pairwise
distinct and fresh for `seen` keeps every row of `ex`. -/
theorem dropDuplicatesAux_append_of_nodup :
    ∀ (ex : List Row) (nd : List Row) (seen : List (String × String)),
      (ex.map rowKey).Nodup → (∀ r ∈ ex, rowKey r ∉ seen) →
      dropDuplicatesAux (ex ++ nd) seen =
        ex ++ dropDuplicatesAux nd ((ex.map rowKey).reverse ++ seen) := by
  intro ex
  induction ex with
  | nil => intro nd seen _ _; simp
  | cons r ex ih =>
    intro nd seen hnd hseen
    have hr : rowKey r ∉ seen := hseen r (List.mem_cons_self r ex)
    rw [List.cons_append, dropDuplicatesAux, if_neg hr,
      ih nd (rowKey r :: seen) (List.nodup_cons.mp (by simpa using hnd)).2 ?side]
    · simp
    case side =>
      intro x hx
      rw [List.mem_cons, not_or]
      refine ⟨fun he => ?_, hseen x (List.mem_cons_of_mem r hx)⟩
      exact (List.nodup_cons.mp (by simpa using hnd)).1 (he ▸ List.mem_map_of_mem rowKey hx)

/-! ### Cost cleaning -/

theorem pyFloatOfCleaned_nonneg {s : String} {q : ℚ} (h : pyFloatOfCleaned s = some q) :
    0 ≤ q := by
  rw [pyFloatOfCleaned] at h
  split at h
  · rw [Option.some_inj] at h
    subst h
    positivity
  · exact absurd h (by simp)

theorem parseCost_nonneg {s : String} {q : ℚ} (h : parseCost s = some q) : 0 ≤ q :=
  pyFloatOfCleaned_nonneg h

theorem mem_of_astypeFloatAll :
    ∀ (ss : List String) (qs : List ℚ), astypeFloatAll ss = some qs →
      ∀ q ∈ qs, ∃ s ∈ ss, pyFloatOfCleaned s = some q := by
  intro ss
  induction ss with
  | nil =>
    intro qs h q hq
    rw [astypeFloatAll, Option.some_inj] at h
    subst h
    exact absurd hq (List.not_mem_nil q)
  | cons s ss ih =>
    intro qs h q hq
    rw [astypeFloatAll] at h
    rcases h1 : pyFloatOfCleaned s with _ | q1 <;> rw [h1] at h
    · exact absurd h (by simp)
    · rcases h2 : astypeFloatAll ss with _ | qs1 <;> rw [h2] at h
      · exact absurd h (by simp)
      · rw [Option.some_inj] at h
        subst h
        rcases List.mem_cons.mp hq with hq | hq
        · exact ⟨s, List.mem_cons_self s ss, hq ▸ h1⟩
        · obtain ⟨s', hs', hps'⟩ := ih qs1 h2 q hq
          exact ⟨s', List.mem_cons_of_mem s hs', hps'⟩

/-! ### The cleaned tables and the merge pipeline -/

theorem cleanDataframe_unitCost {df : InputDF} {sf cat : String} {rows : List Row}
    (h : (cleanDataframe df sf cat).2 = .ok (some rows)) :
    ∀ r ∈ rows, ∃ s, pyFloatOfCleaned s = some r.unitCost := by
  intro r hr
  rw [cleanDataframe] at h
  split at h
  case isTrue hcols =>
    dsimp only at h
    rcases hq : astypeFloatAll (costStrings (descTrimmed (normalizeColumns df))) with _ | qs
    · rw [hq] at h
      exact absurd h (by simp)
    · rw [hq] at h
      simp only [Except.ok.injEq, Option.some.injEq] at h
      subst h
      rw [selectOutput] at hr
      obtain ⟨dq, hdq, hmk⟩ := List.mem_map.mp hr
      have hq2 : dq.2 ∈ qs := (List.of_mem_zip hdq).2
      obtain ⟨s, _, hs⟩ := mem_of_astypeFloatAll _ qs hq dq.2 hq2
      exact ⟨s, by rw [hs, ← hmk]⟩
  case isFalse hcols =>
    exact absurd h (by simp)

theorem mem_of_processFiles (categories : Categories) :
    ∀ (fs : List InputFile) (ls : List (List Row)), processFiles categories fs = .ok ls →
      ∀ rows ∈ ls, ∃ f ∈ fs,
        (cleanDataframe f.df f.name (detectCategory f.stem categories)).2 = .ok (some rows) := by
  intro fs
  induction fs with
  | nil =>
    intro ls h rows hrows
    rw [processFiles] at h
    simp only [Except.ok.injEq] at h
    subst h
    exact absurd hrows (List.not_mem_nil rows)
  | cons f fs ih =>
    intro ls h rows hrows
    rw [processFiles] at h
    rcases hc : (cleanDataframe f.df f.name (detectCategory f.stem categories)).2 with e | o
    · rw [hc] at h
      exact absurd h (by simp)
    · rw [hc] at h
      match o, h with
      | none, h =>
        obtain ⟨f', hf', hc'⟩ := ih ls h rows hrows
        exact ⟨f', List.mem_cons_of_mem f hf', hc'⟩
      | some rows0, h =>
        rcases hrest : processFiles categories fs with e | rest <;> rw [hrest] at h
        · exact absurd h (by simp)
        · simp only [Except.ok.injEq] at h
          subst h
          rcases List.mem_cons.mp hrows with hr | hr
          · exact ⟨f, List.mem_cons_self f fs, hr ▸ hc⟩
          · obtain ⟨f', hf', hc'⟩ := ih rest hrest rows hr
            exact ⟨f', List.mem_cons_of_mem f hf', hc'⟩

theorem mem_combinedTable {mode : String} {master : Option (List Row)} {newData : List Row} :
    ∀ r ∈ combinedTable mode master newData, r ∈ master.getD [] ++ newData := by
  intro r hr
  rw [combinedTable] at hr
  split at hr
  · exact hr
  · exact List.mem_append_right _ hr

theorem combinedTable_of_none (mode : String) (nd : List Row) :
    combinedTable mode none nd = nd := by
  simp [combinedTable]

theorem combinedTable_overwrite (m : Option (List Row)) (nd : List Row) :
    combinedTable "overwrite" m nd = nd := by
  rw [combinedTable, if_neg]
  rintro ⟨h, -⟩
  exact absurd h (by decide)

theorem combinedTable_append_some (ex nd : List Row) :
    combinedTable "append" (some ex) nd = ex ++ nd := by
  rw [combinedTable, if_pos ⟨by decide, rfl⟩]
  rfl

theorem runMerge_congr (config : Option Categories) (files : List InputFile)
    (m₁ m₂ : Option (List Row)) (mode₁ mode₂ : String)
    (h : ∀ nd, combinedTable mode₁ m₁ nd = combinedTable mode₂ m₂ nd) :
    runMerge config files m₁ mode₁ = runMerge config files m₂ mode₂ := by
  cases config with
  | none => rfl
  | some categories =>
    simp only [runMerge]
    by_cases hf : (files.filter isInputFile).isEmpty
    · rw [if_pos hf, if_pos hf]
    · rw [if_neg hf, if_neg hf]
      rcases hp : processFiles categories (files.filter isInputFile) with e | ls
      · rfl
      · dsimp only
        by_cases hl : ls.isEmpty
        · rw [if_pos hl, if_pos hl]
        · rw [if_neg hl, if_neg hl, h]

theorem runMerge_written {config : Option Categories} {files : List InputFile}
    {master : Option (List Row)} {mode : String} {t : List Row}
    (h : runMerge config files master mode = .written t) :
    ∃ categories ls, config = some categories ∧
      processFiles categories (files.filter isInputFile) = .ok ls ∧
      t = dropDuplicates (combinedTable mode master ls.flatten) := by
  cases config with
  | none => exact absurd h (by rw [runMerge]; simp)
  | some categories =>
    rw [runMerge] at h
    by_cases hf : (files.filter isInputFile).isEmpty
    · rw [if_pos hf] at h
      exact absurd h (by simp)
    · rw [if_neg hf] at h
      rcases hp : processFiles categories (files.filter isInputFile) with e | ls
      · rw [hp] at h
        exact absurd h (by simp)
      · rw [hp] at h
        dsimp only at h
        by_cases hl : ls.isEmpty
        · rw [if_pos hl] at h
          exact absurd h (by simp)
        · rw [if_neg hl] at h
          simp only [MergeResult.written.injEq] at h
          exact ⟨categories, ls, rfl, hp, h.symm⟩

/-! ### Dataframe cell and column lemmas -/

theorem getCell_set_ne {r : List Cell} {i j : ℕ} (v : Cell) (h : i ≠ j) :
    getCell (r.set i v) j = getCell r j := by
  simp [getCell, List.getD, List.getElem?_set_ne h]

theorem getCell_set_self {r : List Cell} {i : ℕ} (v : Cell) (h : i < r.length) :
    getCell (r.set i v) i = v := by
  simp [getCell, List.getD, List.getElem?_set_self, h]

theorem getCell_append_left {r : List Cell} (u : List Cell) {i : ℕ} (h : i < r.length) :
    getCell (r ++ u) i = getCell r i := by
  simp [getCell, List.getD, List.getElem?_append_left h]

theorem colIndex_lt {df : InputDF} {name : String} (h : name ∈ df.columns) :
    colIndex df name < df.columns.length := List.indexOf_lt_length.mpr h

theorem colIndex_ne {df : InputDF} {n₁ n₂ : String} (h₁ : n₁ ∈ df.columns)
    (h₂ : n₂ ∈ df.columns) (hne : n₁ ≠ n₂) : colIndex df n₁ ≠ colIndex df n₂ :=
  fun he => hne ((List.indexOf_inj h₁ h₂).mp he)

theorem colIndex_append_of_mem {df : InputDF} {name : String} (extra : List String)
    (h : name ∈ df.columns) :
    (df.columns ++ extra).indexOf name = colIndex df name :=
  List.indexOf_append_of_mem h

theorem length_rows_mapColumn (df : InputDF) (name : String) (f : Cell → Cell) :
    (mapColumn df name f).rows.length = df.rows.length := by
  simp [mapColumn]

theorem length_rows_setColumn {df : InputDF} {name : String} {vals : List Cell}
    (hmem : name ∈ df.columns) (hlen : vals.length = df.rows.length) :
    (setColumn df name vals).rows.length = df.rows.length := by
  rw [setColumn, if_pos hmem]
  simp [List.length_zip, hlen]

theorem length_rows_setConstColumn (df : InputDF) (name : String) (v : Cell) :
    (setConstColumn df name v).rows.length = df.rows.length := by
  rw [setConstColumn]
  split <;> simp

theorem length_getColumn (df : InputDF) (name : String) :
    (getColumn df name).length = df.rows.length := by
  simp [getColumn]

theorem length_normalizeColumns_columns (df : InputDF) :
    (normalizeColumns df).columns.length = df.columns.length := by
  rw [normalizeColumns]
  dsimp only
  split <;> simp

theorem normalizeColumns_rows (df : InputDF) : (normalizeColumns df).rows = df.rows := rfl

theorem normalizeColumns_columns (df : InputDF) :
    (normalizeColumns df).columns =
      (df.columns.map fun c => pyLower (pyStrip c)).map
        fun c => if c = "item description" then "description" else c := by
  rw [normalizeColumns]
  dsimp only
  split
  · rfl
  case isFalse h =>
    have hid : ∀ c ∈ df.columns.map fun c => pyLower (pyStrip c),
        (if c = "item description" then "description" else c) = id c :=
      fun c hc => if_neg fun he => h (by rw [← he]; exact hc)
    exact ((List.map_congr_left hid).trans (List.map_id _)).symm

theorem rect_normalizeColumns {df : InputDF} (h : Rect df) : Rect (normalizeColumns df) := by
  intro r hr
  rw [length_normalizeColumns_columns, normalizeColumns_rows] at *
  exact h r hr

theorem rect_mapColumn {df : InputDF} (name : String) (f : Cell → Cell) (h : Rect df) :
    Rect (mapColumn df name f) := by
  intro r hr
  obtain ⟨r₀, hr₀, rfl⟩ := List.mem_map.mp hr
  rw [List.length_set]
  exact h r₀ hr₀

theorem rect_setColumn {df : InputDF} {name : String} (vals : List Cell)
    (hmem : name ∈ df.columns) (h : Rect df) : Rect (setColumn df name vals) := by
  intro r hr
  rw [setColumn, if_pos hmem] at hr ⊢
  obtain ⟨rv, hrv, rfl⟩ := List.mem_map.mp hr
  rw [List.length_set]
  exact h rv.1 (List.of_mem_zip hrv).1

theorem rect_setConstColumn {df : InputDF} (name : String) (v : Cell) (h : Rect df) :
    Rect (setConstColumn df name v) := by
  intro r hr
  rw [setConstColumn] at hr ⊢
  by_cases hmem : name ∈ df.columns
  · rw [if_pos hmem] at hr ⊢
    obtain ⟨r₀, hr₀, rfl⟩ := List.mem_map.mp hr
    rw [List.length_set]
    exact h r₀ hr₀
  · rw [if_neg hmem] at hr ⊢
    obtain ⟨r₀, hr₀, rfl⟩ := List.mem_map.mp hr
    simp [h r₀ hr₀]

theorem columns_mapColumn (df : InputDF) (name : String) (f : Cell → Cell) :
    (mapColumn df name f).columns = df.columns := rfl

theorem columns_setColumn {df : InputDF} {name : String} (vals : List Cell)
    (hmem : name ∈ df.columns) : (setColumn df name vals).columns = df.columns := by
  rw [setColumn, if_pos hmem]

theorem columns_setConstColumn (df : InputDF) (name : String) (v : Cell) :
    ∃ rest, (setConstColumn df name v).columns = df.columns ++ rest := by
  rw [setConstColumn]
  split
  · exact ⟨[], (List.append_nil _).symm⟩
  · exact ⟨[name], rfl⟩

theorem getColumn_mapColumn_self {df : InputDF} {name : String} (f : Cell → Cell)
    (hmem : name ∈ df.columns) (hrect : Rect df) :
    getColumn (mapColumn df name f) name = (getColumn df name).map f := by
  rw [getColumn, getColumn, mapColumn]
  dsimp only
  rw [List.map_map, List.map_map]
  apply List.map_congr_left
  intro r hr
  dsimp only [Function.comp]
  exact getCell_set_self _ (by rw [hrect r hr]; exact colIndex_lt hmem)

theorem getColumn_mapColumn_ne {df : InputDF} {name other : String} (f : Cell → Cell)
    (hn : name ∈ df.columns) (ho : other ∈ df.columns) (hne : name ≠ other) :
    getColumn (mapColumn df name f) other = getColumn df other := by
  rw [getColumn, getColumn, mapColumn]
  dsimp only
  rw [List.map_map]
  apply List.map_congr_left
  intro r hr
  dsimp only [Function.comp]
  exact getCell_set_ne _ (colIndex_ne hn ho hne)

theorem getColumn_setColumn_self {df : InputDF} {name : String} {vals : List Cell}
    (hmem : name ∈ df.columns) (hrect : Rect df) (hlen : vals.length = df.rows.length) :
    getColumn (setColumn df name vals) name = vals := by
  rw [getColumn, setColumn, if_pos hmem]
  show List.map (fun r => getCell r (colIndex df name))
      (List.map (fun rv : List Cell × Cell => rv.1.set (colIndex df name) rv.2)
        (df.rows.zip vals)) = vals
  rw [List.map_map]
  have h₂ : ∀ rv ∈ df.rows.zip vals,
      ((fun r => getCell r (colIndex df name)) ∘ fun rv : List Cell × Cell =>
        rv.1.set (colIndex df name) rv.2) rv = Prod.snd rv := by
    intro rv hrv
    exact getCell_set_self _ (by rw [hrect rv.1 (List.of_mem_zip hrv).1]; exact colIndex_lt hmem)
  rw [List.map_congr_left h₂, List.map_snd_zip df.rows vals hlen.le]

theorem getColumn_setColumn_ne {df : InputDF} {name other : String} {vals : List Cell}
    (hn : name ∈ df.columns) (ho : other ∈ df.columns) (hne : name ≠ other)
    (hlen : vals.length = df.rows.length) :
    getColumn (setColumn df name vals) other = getColumn df other := by
  rw [getColumn, setColumn, if_pos hn, getColumn]
  show List.map (fun r => getCell r (colIndex df other))
      (List.map (fun rv : List Cell × Cell => rv.1.set (colIndex df name) rv.2)
        (df.rows.zip vals)) = List.map (fun r => getCell r (colIndex df other)) df.rows
  rw [List.map_map]
  have h₂ : ∀ rv ∈ df.rows.zip vals,
      ((fun r => getCell r (colIndex df other)) ∘ fun rv : List Cell × Cell =>
        rv.1.set (colIndex df name) rv.2) rv =
        ((fun r => getCell r (colIndex df other)) ∘ Prod.fst) rv := by
    intro rv _
    exact getCell_set_ne _ (colIndex_ne hn ho hne)
  rw [List.map_congr_left h₂, ← List.map_map, List.map_fst_zip df.rows vals hlen.ge]

theorem getColumn_setConstColumn_ne {df : InputDF} {name other : String} (v : Cell)
    (ho : other ∈ df.columns) (hne : name ≠ other) (hrect : Rect df) :
    getColumn (setConstColumn df name v) other = getColumn df other := by
  rw [getColumn, setConstColumn, getColumn]
  by_cases hn : name ∈ df.columns
  · rw [if_pos hn]
    show List.map (fun r => getCell r (colIndex df other))
        (List.map (fun r => r.set (colIndex df name) v) df.rows) =
      List.map (fun r => getCell r (colIndex df other)) df.rows
    rw [List.map_map]
    apply List.map_congr_left
    intro r _
    exact getCell_set_ne _ (colIndex_ne hn ho hne)
  · rw [if_neg hn]
    show List.map (fun r => getCell r ((df.columns ++ [name]).indexOf other))
        (List.map (fun r => r ++ [v]) df.rows) =
      List.map (fun r => getCell r (colIndex df other)) df.rows
    rw [List.indexOf_append_of_mem ho, List.map_map]
    apply List.map_congr_left
    intro r hr
    exact getCell_append_left _ (by rw [hrect r hr]; exact colIndex_lt ho)

theorem length_astypeFloatAll : ∀ {ss : List String} {qs : List ℚ},
    astypeFloatAll ss = some qs → qs.length = ss.length := by
  intro ss
  induction ss with
  | nil =>
    intro qs h
    rw [astypeFloatAll, Option.some_inj] at h
    subst h
    rfl
  | cons s ss ih =>
    intro qs h
    rw [astypeFloatAll] at h
    rcases h₁ : pyFloatOfCleaned s with _ | q <;> rw [h₁] at h
    · exact absurd h (by simp)
    · rcases h₂ : astypeFloatAll ss with _ | qs₁ <;> rw [h₂] at h
      · exact absurd h (by simp)
      · rw [Option.some_inj] at h
        subst h
        simp [ih h₂]

theorem containsSub_iff (hay needle : List Char) :
    containsSub hay needle = true ↔ ∃ s t, s ++ needle ++ t = hay := by
  rw [containsSub, List.any_eq_true]
  constructor
  · rintro ⟨i, -, heq⟩
    rw [beq_iff_eq] at heq
    refine ⟨hay.take i, (hay.drop i).drop needle.length, ?_⟩
    conv_rhs => rw [← List.take_append_drop i hay, ← List.take_append_drop needle.length
      (hay.drop i)]
    rw [heq, List.append_assoc]
  · rintro ⟨s, t, rfl⟩
    refine ⟨s.length, ?_, ?_⟩
    · rw [List.mem_range]
      simp only [List.append_assoc, List.length_append]
      omega
    · rw [List.append_assoc, List.drop_left, List.take_left, beq_iff_eq]

theorem detectCategory_cons_of_no_match {stem : String} {p : String × List String}
    (cats : Categories) (hp : ∀ kw ∈ p.2, keywordMatches stem kw = false) :
    detectCategory stem (p :: cats) = detectCategory stem cats := by
  rw [detectCategory, detectCategory, List.find?_cons_of_neg]
  intro hany
  obtain ⟨kw, hkw, hm⟩ := List.any_eq_true.mp hany
  rw [hp kw hkw] at hm
  exact Bool.false_ne_true hm

/-! ### Claim theorems -/

/-- C1: in every merged table, deduplication keys each row by
`(category, lowercased whitespace-collapsed description)` and keeps exactly
the first row of each key group, dropping all later rows with that key
regardless of unit cost or source file: the scan agrees with the spec's
first-occurrence description, the key ignores the other two fields, and
every table a run writes is this deduplication of the mode-ordered combined
table. -/
theorem c1_dedup_keeps_first_occurrence :
    (∀ t : List Row, dropDuplicates t = specFirstOccurrences t) ∧
    (∀ (r : Row) (c : ℚ) (s : String),
      rowKey { r with unitCost := c, sourceFile := s } = rowKey r) ∧
    (∀ (config : Option Categories) (files : List InputFile) (master : Option (List Row))
        (mode : String) (t : List Row),
      runMerge config files master mode = .written t →
      ∃ newData, t = dropDuplicates (combinedTable mode master newData)) := by
  refine ⟨dropDuplicates_eq_spec, fun r c s => rfl, ?_⟩
  intro config files master mode t h
  obtain ⟨categories, ls, -, -, ht⟩ := runMerge_written h
  exact ⟨ls.flatten, ht⟩

/-- Witness for C1 at a concrete run: two rows share the normalized key and
only the first survives. -/
theorem c1_dedup_keeps_first_occurrence_witness :
    ∃ newData, [Row.mk "Electrical" "12AWG wire" (5/4) "ElectricalBid.csv"] =
      dropDuplicates (combinedTable "overwrite" none newData) :=
  c1_dedup_keeps_first_occurrence.2.2 (some [("Electrical", ["electrical"])])
    [⟨"ElectricalBid.csv", "ElectricalBid", ".csv",
      ⟨["Item Description", "Unit Cost"],
        [[.str "12AWG wire", .str "$1.25"], [.str "12AWG wire", .str "$1.30"]]⟩⟩]
    none "overwrite" _ (by with_unfolding_all decide)

/-- C2: cost normalization casts to text, deletes every character that is not
a digit or a dot, reads an empty remainder as `"0"` and parses a float; any
value it produces is non-negative, and hence (provided any pre-existing
master rows satisfy it, as tables written by this tool do) every unit cost
in a written table is non-negative. -/
theorem c2_unit_costs_nonneg :
    (∀ (s : String) (q : ℚ), parseCost s = some q → 0 ≤ q) ∧
    (∀ (config : Option Categories) (files : List InputFile) (master : Option (List Row))
        (mode : String) (t : List Row),
      (∀ r ∈ master.getD [], 0 ≤ r.unitCost) →
      runMerge config files master mode = .written t →
      ∀ r ∈ t, 0 ≤ r.unitCost) := by
  refine ⟨fun s q h => parseCost_nonneg h, ?_⟩
  intro config files master mode t hm h r hr
  obtain ⟨categories, ls, -, hp, ht⟩ := runMerge_written h
  subst ht
  rcases List.mem_append.mp (mem_combinedTable r (mem_of_mem_dropDuplicates hr)) with h3 | h3
  · exact hm r h3
  · obtain ⟨rows, hrows, hrr⟩ := List.mem_flatten.mp h3
    obtain ⟨f, -, hc⟩ := mem_of_processFiles categories _ ls hp rows hrows
    obtain ⟨s, hs⟩ := cleanDataframe_unitCost hc r hrr
    exact pyFloatOfCleaned_nonneg hs

/-- Witness for C2: the noisy text `"$1.25"` parses to a non-negative value,
and every row of a concrete written table has non-negative cost. -/
theorem c2_unit_costs_nonneg_witness :
    (0 : ℚ) ≤ 5/4 ∧
    ∀ r ∈ [Row.mk "Electrical" "12AWG wire" (5/4) "ElectricalBid.csv"], 0 ≤ r.unitCost :=
  ⟨c2_unit_costs_nonneg.1 "$1.25" (5/4) (by with_unfolding_all decide),
   c2_unit_costs_nonneg.2 (some [("Electrical", ["electrical"])])
    [⟨"ElectricalBid.csv", "ElectricalBid", ".csv",
      ⟨["Item Description", "Unit Cost"],
        [[.str "12AWG wire", .str "$1.25"], [.str "12AWG wire", .str "$1.30"]]⟩⟩]
    none "overwrite" _ (by simp) (by with_unfolding_all decide)⟩

/-- C3 counterexample: a cost cell whose cleaned text has several dots does
make normalization fail — `float()` raises, modelled `.error` — so the row is
not kept, contrary to the claim. -/
theorem c3_counterexample_multidot_fails :
    parseCost "12.34.56" = none ∧
    (cleanDataframe ⟨["Description", "Unit Cost"],
        [[Cell.str "widget", Cell.str "12.34.56"]]⟩ "bad.csv" "Unknown").2 =
      Except.error () := by
  exact ⟨by with_unfolding_all decide, by with_unfolding_all rfl⟩

/-- C3 amended: a cleaned cost text with two or more dots does not parse —
the float conversion raises and, since nothing catches it, the whole run
crashes; the rows of that file are not kept. -/
theorem c3_multidot_crashes_run :
    (∀ s : String, 2 ≤ (cleanCostText s).data.count '.' → parseCost s = none) ∧
    (∀ (categories : Categories) (f : InputFile) (files : List InputFile)
        (master : Option (List Row)) (mode : String),
      isInputFile f = true →
      (cleanDataframe f.df f.name (detectCategory f.stem categories)).2 = .error () →
      runMerge (some categories) (f :: files) master mode = .crash) := by
  constructor
  · intro s h
    have hne : cleanCostText s ≠ "" := by
      intro he
      rw [he] at h
      simp at h
    rw [parseCost, emptyToZero, if_neg hne, pyFloatOfCleaned, if_neg]
    rintro ⟨-, hle, -⟩
    omega
  · intro categories f files master mode hf hc
    rw [runMerge]
    rw [List.filter_cons_of_pos hf, List.isEmpty_cons, if_neg Bool.false_ne_true,
      processFiles, hc]

/-- Witness for C3's amended statement at the input `"12.34.56"`. -/
theorem c3_multidot_crashes_run_witness :
    parseCost "12.34.56" = none ∧
    runMerge (some []) [⟨"bad.csv", "bad", ".csv",
        ⟨["Description", "Unit Cost"], [[Cell.str "w", Cell.str "12.34.56"]]⟩⟩]
      none "overwrite" = .crash :=
  ⟨c3_multidot_crashes_run.1 "12.34.56" (by with_unfolding_all decide),
   c3_multidot_crashes_run.2 [] ⟨"bad.csv", "bad", ".csv",
      ⟨["Description", "Unit Cost"], [[Cell.str "w", Cell.str "12.34.56"]]⟩⟩ [] none
    "overwrite" (by with_unfolding_all decide) (by with_unfolding_all rfl)⟩

/-- C4: category detection returns the first category, in configuration
order, one of whose keywords is a case-insensitive substring of the stem,
and `"Unknown"` when no keyword of any category matches; the keyword test is
exactly case-insensitive substring containment. -/
theorem c4_detect_category_first_match :
    (∀ stem kw : String,
      keywordMatches stem kw = true ↔
        ∃ s t, s ++ (pyLower kw).data ++ t = (pyLower stem).data) ∧
    (∀ (stem : String) (pre : Categories) (c : String) (kws : List String) (post : Categories),
      (∀ p ∈ pre, ∀ kw ∈ p.2, keywordMatches stem kw = false) →
      (∃ kw ∈ kws, keywordMatches stem kw = true) →
      detectCategory stem (pre ++ (c, kws) :: post) = c) ∧
    (∀ (stem : String) (categories : Categories),
      (∀ p ∈ categories, ∀ kw ∈ p.2, keywordMatches stem kw = false) →
      detectCategory stem categories = "Unknown") := by
  refine ⟨fun stem kw => containsSub_iff _ _, ?_, ?_⟩
  · intro stem pre c kws post hpre hmatch
    induction pre with
    | nil =>
      rw [List.nil_append, detectCategory, List.find?_cons_of_pos]
      rw [List.any_eq_true]
      exact hmatch
    | cons p pre ih =>
      rw [List.cons_append,
        detectCategory_cons_of_no_match _ (hpre p (List.mem_cons_self p pre))]
      exact ih fun p' hp' => hpre p' (List.mem_cons_of_mem p hp')
  · intro stem categories hall
    induction categories with
    | nil => rfl
    | cons p cats ih =>
      rw [detectCategory_cons_of_no_match _ (hall p (List.mem_cons_self p cats))]
      exact ih fun p' hp' => hall p' (List.mem_cons_of_mem p hp')

/-- Witness for C4: a matching stem picks the first matching category past a
non-matching one, and an unmatched stem yields `"Unknown"`. -/
theorem c4_detect_category_first_match_witness :
    (∃ s t, s ++ (pyLower "electrical").data ++ t = (pyLower "ElectricalBid").data) ∧
    detectCategory "ElectricalBid"
      [("Plumbing", ["pipe"]), ("Electrical", ["electrical"])] = "Electrical" ∧
    detectCategory "Mystery" [("Plumbing", ["pipe"])] = "Unknown" :=
  ⟨(c4_detect_category_first_match.1 "ElectricalBid" "electrical").mp
      (by with_unfolding_all decide),
   c4_detect_category_first_match.2.1 "ElectricalBid" [("Plumbing", ["pipe"])] "Electrical"
      ["electrical"] [] (by with_unfolding_all decide) (by with_unfolding_all decide),
   c4_detect_category_first_match.2.2 "Mystery" [("Plumbing", ["pipe"])]
      (by with_unfolding_all decide)⟩

/-- C5: each fatal abort — missing configuration, no input files after the
directory filter, no file yielding valid rows — returns without writing, and
the master file is unchanged. -/
theorem c5_fatal_aborts_leave_master_untouched :
    ∀ (files : List InputFile) (master : Option (List Row)) (mode : String),
      (runMerge none files master mode = .abortNoWrite ∧
        masterAfterMerge master (runMerge none files master mode) = master) ∧
      (∀ categories : Categories, files.filter isInputFile = [] →
        runMerge (some categories) files master mode = .abortNoWrite ∧
        masterAfterMerge master (runMerge (some categories) files master mode) = master) ∧
      (∀ categories : Categories,
        processFiles categories (files.filter isInputFile) = .ok [] →
        runMerge (some categories) files master mode = .abortNoWrite ∧
        masterAfterMerge master (runMerge (some categories) files master mode) = master) := by
  intro files master mode
  refine ⟨⟨rfl, rfl⟩, ?_, ?_⟩
  · intro categories hempty
    have h : runMerge (some categories) files master mode = .abortNoWrite := by
      rw [runMerge, hempty]
      rfl
    exact ⟨h, by rw [h]; rfl⟩
  · intro categories hnone
    have h : runMerge (some categories) files master mode = .abortNoWrite := by
      rw [runMerge]
      by_cases hf : (files.filter isInputFile).isEmpty
      · rw [if_pos hf]
      · rw [if_neg hf, hnone]
        rfl
    exact ⟨h, by rw [h]; rfl⟩

/-- Witness for C5 at a concrete aborting run: one lock-file is filtered
out, nothing is processed, and an existing master survives untouched. -/
theorem c5_fatal_aborts_leave_master_untouched_witness :
    runMerge (some [("A", ["a"])])
        [⟨"~$x.xlsx", "~$x", ".xlsx", ⟨["Description", "Unit Cost"], []⟩⟩]
        (some [Row.mk "A" "kept" 1 "old.xlsx"]) "append" = .abortNoWrite ∧
      masterAfterMerge (some [Row.mk "A" "kept" 1 "old.xlsx"])
        (runMerge (some [("A", ["a"])])
          [⟨"~$x.xlsx", "~$x", ".xlsx", ⟨["Description", "Unit Cost"], []⟩⟩]
          (some [Row.mk "A" "kept" 1 "old.xlsx"]) "append") =
        some [Row.mk "A" "kept" 1 "old.xlsx"] :=
  (c5_fatal_aborts_leave_master_untouched
      [⟨"~$x.xlsx", "~$x", ".xlsx", ⟨["Description", "Unit Cost"], []⟩⟩]
      (some [Row.mk "A" "kept" 1 "old.xlsx"]) "append").2.1
    [("A", ["a"])] (by with_unfolding_all rfl)

/-- C6: overwrite ignores any pre-existing master (the pre-dedup table is the
new data alone), append with an existing master puts the existing rows first
followed by the new data, and append without a master behaves exactly like
overwrite. -/
theorem c6_mode_selection :
    (∀ (master : Option (List Row)) (newData : List Row),
      combinedTable "overwrite" master newData = newData) ∧
    (∀ existing newData : List Row,
      combinedTable "append" (some existing) newData = existing ++ newData) ∧
    (∀ (config : Option Categories) (files : List InputFile),
      runMerge config files none "append" = runMerge config files none "overwrite") ∧
    (∀ (config : Option Categories) (files : List InputFile) (master : Option (List Row)),
      runMerge config files master "overwrite" = runMerge config files none "overwrite") := by
  refine ⟨combinedTable_overwrite, combinedTable_append_some, ?_, ?_⟩
  · intro config files
    exact runMerge_congr _ _ _ _ _ _ fun nd => by
      rw [combinedTable_of_none, combinedTable_of_none]
  · intro config files master
    exact runMerge_congr _ _ _ _ _ _ fun nd => by
      rw [combinedTable_overwrite, combinedTable_of_none]

/-- C7: after an append run over an existing master, the key set of the
result is the union of the master's keys and the new rows' keys, and — the
master satisfying its uniqueness invariant (tables written by this tool do)
— the row count never decreases. -/
theorem c7_append_union_and_monotone :
    ∀ existing newData : List Row,
      keySet (dropDuplicates (combinedTable "append" (some existing) newData)) =
        keySet existing ∪ keySet newData ∧
      ((existing.map rowKey).Nodup →
        existing.length ≤
          (dropDuplicates (combinedTable "append" (some existing) newData)).length) := by
  intro ex nd
  constructor
  · rw [combinedTable_append_some, keySet_dropDuplicates, keySet_append]
  · intro hnd
    rw [combinedTable_append_some, dropDuplicates,
      dropDuplicatesAux_append_of_nodup ex nd [] hnd (by simp), List.length_append]
    omega

/-- Witness for C7: a new row duplicating the master's key adds nothing, yet
the count does not drop. -/
theorem c7_append_union_and_monotone_witness :
    keySet (dropDuplicates (combinedTable "append" (some [Row.mk "A" "x" 1 "f"])
        [Row.mk "A" "x" 2 "g"])) =
      keySet [Row.mk "A" "x" 1 "f"] ∪ keySet [Row.mk "A" "x" 2 "g"] ∧
    [Row.mk "A" "x" 1 "f"].length ≤
      (dropDuplicates (combinedTable "append" (some [Row.mk "A" "x" 1 "f"])
        [Row.mk "A" "x" 2 "g"])).length :=
  ⟨(c7_append_union_and_monotone [Row.mk "A" "x" 1 "f"] [Row.mk "A" "x" 2 "g"]).1,
   (c7_append_union_and_monotone [Row.mk "A" "x" 1 "f"] [Row.mk "A" "x" 2 "g"]).2
    (by with_unfolding_all decide)⟩

/-- C8: merging a fixed input set twice in overwrite mode gives identical
row-level output: the second run, over whatever master the first run left,
returns exactly the first run's result. -/
theorem c8_overwrite_idempotent :
    ∀ (config : Option Categories) (files : List InputFile) (master : Option (List Row)),
      runMerge config files
          (masterAfterMerge master (runMerge config files master "overwrite")) "overwrite" =
        runMerge config files master "overwrite" :=
  fun config files master =>
    runMerge_congr _ _ _ _ _ _ fun nd => by
      rw [combinedTable_overwrite, combinedTable_overwrite]

/-- C9 counterexample: a failure while auto-resizing columns is not
swallowed — no handler guards the `auto_adjust_column_width` call, so it
propagates out of the post-processing. -/
theorem c9_counterexample_resize_failure_propagates :
    (saveAndFinalize ⟨none⟩ [] true false).2 = Except.error () := rfl

/-- C9 amended: once the output is written, a viewer-launch failure is
swallowed, and the saved table is unaffected by either failure; a failure
while auto-resizing columns, however, propagates uncaught. -/
theorem c9_only_viewer_failure_swallowed :
    ∀ (st : OutputState) (table : List Row) (viewerFails : Bool),
      (saveAndFinalize st table false viewerFails).2 = Except.ok () ∧
      (∀ resizeFails : Bool,
        (saveAndFinalize st table resizeFails viewerFails).1.masterFile = some table) ∧
      (saveAndFinalize st table true viewerFails).2 = Except.error () := by
  intro st table vf
  refine ⟨rfl, ?_, rfl⟩
  intro rf
  cases rf <;> rfl

/-- C10: `clean_dataframe` mutates the caller's dataframe in place — its
column labels are stripped, lowercased, and an `item description` label is
renamed to `description` even when the file is rejected (rows untouched),
and on acceptance the description column is moreover overwritten with the
trimmed text and the unit cost column with the parsed floats carried by the
returned rows. -/
theorem c10_clean_dataframe_mutates_caller :
    ∀ (df : InputDF) (sourceFile category : String), Rect df →
      ((cleanDataframe df sourceFile category).2 = .ok none →
        (cleanDataframe df sourceFile category).1.columns =
          ((df.columns.map fun c => pyLower (pyStrip c)).map
            fun c => if c = "item description" then "description" else c) ∧
        (cleanDataframe df sourceFile category).1.rows = df.rows) ∧
      (∀ rows, (cleanDataframe df sourceFile category).2 = .ok (some rows) →
        (cleanDataframe df sourceFile category).1.columns.take df.columns.length =
          ((df.columns.map fun c => pyLower (pyStrip c)).map
            fun c => if c = "item description" then "description" else c) ∧
        getColumn (cleanDataframe df sourceFile category).1 "description" =
          (getColumn (normalizeColumns df) "description").map
            (fun c => Cell.str (pyStrip c.asText)) ∧
        getColumn (cleanDataframe df sourceFile category).1 "unit cost" =
          rows.map fun r => Cell.num r.unitCost) := by
  intro df sourceFile category hrect
  constructor
  · intro h
    by_cases hcols : "description" ∈ (normalizeColumns df).columns ∧
        "unit cost" ∈ (normalizeColumns df).columns
    · exfalso
      rw [cleanDataframe, if_pos hcols] at h
      dsimp only at h
      rcases hq : astypeFloatAll (costStrings (descTrimmed (normalizeColumns df))) with _ | qs <;>
        rw [hq] at h <;> simp at h
    · rw [cleanDataframe, if_neg hcols]
      exact ⟨normalizeColumns_columns df, rfl⟩
  · intro rows h
    by_cases hcols : "description" ∈ (normalizeColumns df).columns ∧
        "unit cost" ∈ (normalizeColumns df).columns
    case neg =>
      rw [cleanDataframe, if_neg hcols] at h
      simp at h
    rw [cleanDataframe, if_pos hcols] at h ⊢
    dsimp only at h ⊢
    rcases hq : astypeFloatAll (costStrings (descTrimmed (normalizeColumns df))) with _ | qs
    · rw [hq] at h
      simp at h
    rw [hq] at h
    dsimp only at h ⊢
    simp only [Except.ok.injEq, Option.some.injEq] at h
    obtain ⟨hD, hU⟩ := hcols
    have hrect1 : Rect (normalizeColumns df) := rect_normalizeColumns hrect
    have hrect2 : Rect (descTrimmed (normalizeColumns df)) := rect_mapColumn _ _ hrect1
    have hD2 : "description" ∈ (descTrimmed (normalizeColumns df)).columns := hD
    have hU2 : "unit cost" ∈ (descTrimmed (normalizeColumns df)).columns := hU
    have hqlen : qs.length = (descTrimmed (normalizeColumns df)).rows.length := by
      rw [length_astypeFloatAll hq, costStrings, List.length_map, length_getColumn]
    have hlenq : (qs.map Cell.num).length = (descTrimmed (normalizeColumns df)).rows.length := by
      rw [List.length_map]
      exact hqlen
    have hrect3 : Rect (setColumn (descTrimmed (normalizeColumns df)) "unit cost"
        (qs.map Cell.num)) := rect_setColumn _ hU2 hrect2
    have hcols3 : (setColumn (descTrimmed (normalizeColumns df)) "unit cost"
          (qs.map Cell.num)).columns = (descTrimmed (normalizeColumns df)).columns :=
      columns_setColumn _ hU2
    have hD3 : "description" ∈ (setColumn (descTrimmed (normalizeColumns df)) "unit cost"
        (qs.map Cell.num)).columns := by
      rw [hcols3]
      exact hD2
    have hU3 : "unit cost" ∈ (setColumn (descTrimmed (normalizeColumns df)) "unit cost"
        (qs.map Cell.num)).columns := by
      rw [hcols3]
      exact hU2
    have hrect4 : Rect (setConstColumn (setColumn (descTrimmed (normalizeColumns df))
        "unit cost" (qs.map Cell.num)) "category" (.str category)) :=
      rect_setConstColumn _ _ hrect3
    obtain ⟨r₁, hc4⟩ := columns_setConstColumn (setColumn (descTrimmed (normalizeColumns df))
      "unit cost" (qs.map Cell.num)) "category" (.str category)
    have hD4 : "description" ∈ (setConstColumn (setColumn (descTrimmed (normalizeColumns df))
        "unit cost" (qs.map Cell.num)) "category" (Cell.str category)).columns := by
      rw [hc4]
      exact List.mem_append_left _ hD3
    have hU4 : "unit cost" ∈ (setConstColumn (setColumn (descTrimmed (normalizeColumns df))
        "unit cost" (qs.map Cell.num)) "category" (Cell.str category)).columns := by
      rw [hc4]
      exact List.mem_append_left _ hU3
    have gd : getColumn (withProvenance (setColumn (descTrimmed (normalizeColumns df))
          "unit cost" (qs.map Cell.num)) sourceFile category) "description" =
        (getColumn (normalizeColumns df) "description").map
          (fun c => Cell.str (pyStrip c.asText)) := by
      rw [withProvenance, getColumn_setConstColumn_ne _ hD4 (by decide) hrect4,
        getColumn_setConstColumn_ne _ hD3 (by decide) hrect3,
        getColumn_setColumn_ne hU2 hD2 (by decide) hlenq,
        descTrimmed, getColumn_mapColumn_self _ hD hrect1]
    have gu : getColumn (withProvenance (setColumn (descTrimmed (normalizeColumns df))
          "unit cost" (qs.map Cell.num)) sourceFile category) "unit cost" =
        qs.map Cell.num := by
      rw [withProvenance, getColumn_setConstColumn_ne _ hU4 (by decide) hrect4,
        getColumn_setConstColumn_ne _ hU3 (by decide) hrect3,
        getColumn_setColumn_self hU2 hrect2 hlenq]
    have hdlen : qs.length ≤ ((getColumn (withProvenance (setColumn
        (descTrimmed (normalizeColumns df)) "unit cost" (qs.map Cell.num))
          sourceFile category) "description").map Cell.asText).length := by
      rw [List.length_map, length_getColumn, withProvenance, length_rows_setConstColumn,
        length_rows_setConstColumn, length_rows_setColumn hU2 hlenq]
      exact hqlen.le
    have hrowsq : rows.map (fun r => Cell.num r.unitCost) = qs.map Cell.num := by
      rw [← h, selectOutput, List.map_map]
      have hmk : ∀ dq ∈ (((getColumn (withProvenance (setColumn
          (descTrimmed (normalizeColumns df)) "unit cost" (qs.map Cell.num))
            sourceFile category) "description").map Cell.asText).zip qs),
          ((fun r => Cell.num r.unitCost) ∘
            fun dq : String × ℚ => Row.mk category dq.1 dq.2 sourceFile) dq =
          (Cell.num ∘ Prod.snd) dq := fun dq _ => rfl
      rw [List.map_congr_left hmk, ← List.map_map, List.map_snd_zip _ _ hdlen]
    obtain ⟨r₂, hc5⟩ := columns_setConstColumn (setConstColumn (setColumn
      (descTrimmed (normalizeColumns df)) "unit cost" (qs.map Cell.num)) "category"
        (.str category)) "source file" (.str sourceFile)
    have hcolsfull : (withProvenance (setColumn (descTrimmed (normalizeColumns df))
          "unit cost" (qs.map Cell.num)) sourceFile category).columns =
        (normalizeColumns df).columns ++ (r₁ ++ r₂) := by
      rw [withProvenance, hc5, hc4, hcols3, List.append_assoc]
      rfl
    have htake : (withProvenance (setColumn (descTrimmed (normalizeColumns df))
          "unit cost" (qs.map Cell.num)) sourceFile category).columns.take
        df.columns.length = (normalizeColumns df).columns := by
      rw [hcolsfull, ← length_normalizeColumns_columns df, List.take_left]
    exact ⟨htake.trans (normalizeColumns_columns df), gd, gu.trans hrowsq.symm⟩

/-- Witness for C10: a concrete file whose `Item Description ` label is
renamed and whose columns are overwritten on acceptance. -/
theorem c10_clean_dataframe_mutates_caller_witness :
    getColumn (cleanDataframe
        ⟨["Item Description ", "Unit Cost"], [[Cell.str " w ", Cell.str "$2"]]⟩
        "f.csv" "C").1 "description" =
      (getColumn (normalizeColumns
        ⟨["Item Description ", "Unit Cost"], [[Cell.str " w ", Cell.str "$2"]]⟩)
          "description").map (fun c => Cell.str (pyStrip c.asText)) ∧
    getColumn (cleanDataframe
        ⟨["Item Description ", "Unit Cost"], [[Cell.str " w ", Cell.str "$2"]]⟩
        "f.csv" "C").1 "unit cost" =
      [Row.mk "C" "w" 2 "f.csv"].map fun r => Cell.num r.unitCost :=
  ⟨((c10_clean_dataframe_mutates_caller
      ⟨["Item Description ", "Unit Cost"], [[Cell.str " w ", Cell.str "$2"]]⟩
      "f.csv" "C" (by intro r hr; fin_cases hr; rfl)).2
      [Row.mk "C" "w" 2 "f.csv"] (by with_unfolding_all rfl)).2.1,
   ((c10_clean_dataframe_mutates_caller
      ⟨["Item Description ", "Unit Cost"], [[Cell.str " w ", Cell.str "$2"]]⟩
      "f.csv" "C" (by intro r hr; fin_cases hr; rfl)).2
      [Row.mk "C" "w" 2 "f.csv"] (by with_unfolding_all rfl)).2.2⟩

end MergeEstimates
